import Mathlib

set_option maxRecDepth 4096

/-!
Shallow embedding of the Smart Spacing text processor (src/processor.ts) and of
the default configuration (src/main.ts DEFAULT_SETTINGS).  Strings are modelled
as `List Char` (JavaScript strings are sequences of UTF-16 units; every
character that occurs in this development is a single unit).  JavaScript
regular-expression and `String.replace` behaviour is modelled explicitly where
the source relies on it.
-/

/-- Settings record, src/processor.ts lines 8-15. -/
structure SmartSpacingSettings where
  removeInternalBoldSpaces : Bool
  spaceBetweenChineseAndBold : Bool
  spaceBetweenEnglishAndBold : Bool
  spaceBetweenChineseAndItalic : Bool
  skipCodeBlocks : Bool
  skipInlineCode : Bool
deriving DecidableEq, Repr

/-- Default configuration, src/main.ts lines 15-22. -/
def DEFAULT_SETTINGS : SmartSpacingSettings :=
  { removeInternalBoldSpaces := true
    spaceBetweenChineseAndBold := true
    spaceBetweenEnglishAndBold := false
    spaceBetweenChineseAndItalic := true
    skipCodeBlocks := true
    skipInlineCode := true }

/-- The NUL character used to build placeholder tokens. -/
def nulChar : Char := Char.ofNat 0

/-- The backtick character (code 96). -/
def btChar : Char := Char.ofNat 96

/-- The apostrophe character (code 39), special in JS replacement strings. -/
def apChar : Char := Char.ofNat 39

/-- JavaScript whitespace (the class matched by `\s` and removed by `trim`). -/
def jsWhitespace (c : Char) : Bool :=
  let n := c.toNat
  n = 32 || n = 9 || n = 10 || n = 13 || n = 11 || n = 12 ||
  n = 160 || n = 0x1680 || (0x2000 ≤ n && n ≤ 0x200a) ||
  n = 0x2028 || n = 0x2029 || n = 0x202f || n = 0x205f ||
  n = 0x3000 || n = 0xfeff

/-- The class `[ \t]` used when skipping spaces after an opening marker. -/
def isSpaceTab (c : Char) : Bool := c == ' ' || c == '\t'

/-- JavaScript line terminators (not matched by `.`). -/
def lineTerminator (c : Char) : Bool :=
  let n := c.toNat
  n = 10 || n = 13 || n = 0x2028 || n = 0x2029

/-- src/processor.ts lines 365-367: CJK Unified Ideographs test. -/
def isChinese (c : Char) : Bool :=
  decide (0x4e00 ≤ c.toNat ∧ c.toNat ≤ 0x9fa5)

/-- src/processor.ts lines 369-371: ASCII alphanumeric test. -/
def isAlphaNumeric (c : Char) : Bool :=
  decide ((65 ≤ c.toNat ∧ c.toNat ≤ 90) ∨ (97 ≤ c.toNat ∧ c.toNat ≤ 122) ∨
    (48 ≤ c.toNat ∧ c.toNat ≤ 57))

/-- src/processor.ts lines 373-378.  `none` models the JS `undefined` char. -/
def shouldAddSpaceBefore (c : Option Char) (settings : SmartSpacingSettings) : Bool :=
  match c with
  | none => false
  | some c =>
    if c == ' ' || c == '\t' then false
    else if isChinese c then settings.spaceBetweenChineseAndBold
    else if isAlphaNumeric c then settings.spaceBetweenEnglishAndBold
    else false

/-- src/processor.ts lines 380-385. -/
def shouldAddSpaceAfter (c : Option Char) (settings : SmartSpacingSettings) : Bool :=
  match c with
  | none => false
  | some c =>
    if c == ' ' || c == '\t' || c == '\n' then false
    else if isChinese c then settings.spaceBetweenChineseAndBold
    else if isAlphaNumeric c then settings.spaceBetweenEnglishAndBold
    else false

/-- `text.split('\n')`: always yields one more part than there are newlines. -/
def splitNl : List Char → List (List Char)
  | [] => [[]]
  | c :: r =>
    if c = '\n' then [] :: splitNl r
    else
      match splitNl r with
      | [] => [[c]]
      | h :: t => (c :: h) :: t

/-- `lines.join('\n')`. -/
def joinNl (ls : List (List Char)) : List Char := List.intercalate ['\n'] ls

/-- `line.trim()`. -/
def trimJS (l : List Char) : List Char :=
  ((l.dropWhile jsWhitespace).reverse.dropWhile jsWhitespace).reverse

/-- `s.indexOf(pat)` as an option. -/
def firstIndexOf (s pat : List Char) : Option Nat :=
  if pat.isPrefixOf s then some 0
  else
    match s with
    | [] => none
    | _ :: r => (firstIndexOf r pat).map (fun i => i + 1)

/-- GetSubstitution of ECMAScript `String.replace` with a string pattern:
`$$` is a dollar, `$&` the matched text, a dollar-backtick the text before the
match, a dollar-apostrophe the text after it; everything else is literal. -/
def getSubstitution (rep matched pre post : List Char) : List Char :=
  match rep with
  | [] => []
  | c :: r =>
    if c = '$' then
      match r with
      | [] => [c]
      | d :: r2 =>
        if d = '$' then '$' :: getSubstitution r2 matched pre post
        else if d = '&' then matched ++ getSubstitution r2 matched pre post
        else if d = btChar then pre ++ getSubstitution r2 matched pre post
        else if d = apChar then post ++ getSubstitution r2 matched pre post
        else c :: d :: getSubstitution r2 matched pre post
    else c :: getSubstitution r matched pre post

/-- `s.replace(pat, rep)` with string arguments: replaces the first occurrence
of `pat`, applying GetSubstitution to `rep`. -/
def replaceFirstJS (s pat rep : List Char) : List Char :=
  match firstIndexOf s pat with
  | none => s
  | some i =>
    s.take i ++ getSubstitution rep pat (s.take i) (s.drop (i + pat.length)) ++
      s.drop (i + pat.length)

/-- A protected span: placeholder and original text, src/processor.ts 20-23. -/
structure ProtectedSection where
  placeholder : List Char
  original : List Char
deriving DecidableEq, Repr

/-- Decimal digits of a number, as in JS template interpolation. -/
def natChars (n : Nat) : List Char := (Nat.repr n).toList

def phLIST (n : Nat) : List Char :=
  nulChar :: ('L' :: 'I' :: 'S' :: 'T' :: []) ++ natChars n ++ [nulChar]

def phCODE (n : Nat) : List Char :=
  nulChar :: ('C' :: 'O' :: 'D' :: 'E' :: []) ++ natChars n ++ [nulChar]

def phLATEX (n : Nat) : List Char :=
  nulChar :: ('L' :: 'A' :: 'T' :: 'E' :: 'X' :: []) ++ natChars n ++ [nulChar]

/-- A match of the inline-code regex at the head of `l`:
a backtick, one or more non-backticks, a backtick.  Returns the matched text
and the remainder after it. -/
def codeSpanHere (l : List Char) : Option (List Char × List Char) :=
  match l with
  | [] => none
  | c :: r =>
    if c = btChar then
      let run := r.takeWhile (fun x => !(x == btChar))
      if 0 < run.length ∧ (r.drop run.length).head? = some btChar then
        some (btChar :: run ++ [btChar], r.drop (run.length + 1))
      else none
    else none

/-- Leftmost inline-code match in `l`: index and matched text. -/
def scanCodeSpan : List Char → Option (Nat × List Char)
  | [] => none
  | c :: r =>
    match codeSpanHere (c :: r) with
    | some (m, _) => some (0, m)
    | none => (scanCodeSpan r).map (fun p => (p.1 + 1, p.2))

/-- `regex.exec(s)` for the global inline-code regex with `lastIndex = li`:
first match starting at or after `li`. -/
def findCodeSpanFrom (s : List Char) (li : Nat) : Option (Nat × List Char) :=
  (scanCodeSpan (s.drop li)).map (fun p => (li + p.1, p.2))

/-- The exec-while loop of src/processor.ts lines 121-135: repeatedly finds a
span at or after the regex `lastIndex` in the *current* (already mutated)
string, records a section under the fixed placeholder `ph` (the source never
increments `nextIndex` in this loop), and replaces the first occurrence of the
matched text.  `fuel` dominates the iteration count (each step removes two
backticks). -/
def execLoop (fuel : Nat) (s : List Char) (li : Nat) (ph : List Char)
    (secs : List ProtectedSection) : List Char × List ProtectedSection :=
  match fuel with
  | 0 => (s, secs)
  | fuel2 + 1 =>
    match findCodeSpanFrom s li with
    | none => (s, secs)
    | some (idx, m) =>
      execLoop fuel2 (replaceFirstJS s m ph) (idx + m.length) ph
        (secs ++ [{ placeholder := ph, original := m }])

/-- The callback-based replacement of src/processor.ts lines 138-142: a plain
left-to-right global replace of inline-code spans, incrementing the index.
`fuel` dominates the number of scan steps; every step consumes at least one
character, so seeding `fuel` with the list length is always sufficient. -/
def protectCodeCb (fuel : Nat) (l : List Char) (n : Nat) :
    List Char × Nat × List ProtectedSection :=
  match fuel with
  | 0 => (l, n, [])
  | fuel2 + 1 =>
    match l with
    | [] => ([], n, [])
    | c :: r =>
      if c = btChar then
        let run := r.takeWhile (fun x => !(x == btChar))
        if 0 < run.length ∧ (r.drop run.length).head? = some btChar then
          let m := btChar :: run ++ [btChar]
          let res := protectCodeCb fuel2 (r.drop (run.length + 1)) (n + 1)
          (phCODE n ++ res.1, res.2.1,
            { placeholder := phCODE n, original := m } :: res.2.2)
        else
          let res := protectCodeCb fuel2 r n
          (c :: res.1, res.2.1, res.2.2)
      else
        let res := protectCodeCb fuel2 r n
        (c :: res.1, res.2.1, res.2.2)

/-- Greedy body of the inline-LaTeX regex `(?:\\.|[^$\\])*`: returns the
consumed body and the remainder.  A lone trailing backslash stops the body,
and so does a backslash followed by a line terminator, since `.` cannot match
one (while the negated class `[^$\\]` can). -/
def latexBody : List Char → List Char × List Char
  | [] => ([], [])
  | c :: r =>
    if c = '$' then ([], c :: r)
    else if c = '\\' then
      match r with
      | [] => ([], c :: r)
      | d :: r2 =>
        if lineTerminator d then ([], c :: d :: r2)
        else
          let res := latexBody r2
          (c :: d :: res.1, res.2)
    else
      let res := latexBody r
      (c :: res.1, res.2)

/-- The inline-LaTeX global replace of src/processor.ts lines 146-152:
a `$` not preceded by a backslash, a greedy escaped-or-plain body, a closing
`$`.  `prev` tracks the previous subject character for the lookbehind.
`fuel` dominates the scan steps; the list length is always sufficient. -/
def protectLatexCb (fuel : Nat) (prev : Option Char) (l : List Char) (n : Nat) :
    List Char × Nat × List ProtectedSection :=
  match fuel with
  | 0 => (l, n, [])
  | fuel2 + 1 =>
    match l with
    | [] => ([], n, [])
    | c :: r =>
      if c = '$' ∧ prev ≠ some '\\' then
        let b := latexBody r
        if b.2.head? = some '$' then
          let m := '$' :: b.1 ++ ['$']
          let res := protectLatexCb fuel2 (some '$') (b.2.drop 1) (n + 1)
          (phLATEX n ++ res.1, res.2.1,
            { placeholder := phLATEX n, original := m } :: res.2.2)
        else
          let res := protectLatexCb fuel2 (some c) r n
          (c :: res.1, res.2.1, res.2.2)
      else
        let res := protectLatexCb fuel2 (some c) r n
        (c :: res.1, res.2.1, res.2.2)

/-- Step 1 of src/processor.ts lines 98-117: the leading list-marker regex
`/^(?:\s*)([*])(?=\s)/`; on a hit the whole match (whitespace plus asterisk)
is recorded and its first occurrence replaced by the LIST placeholder. -/
def protectListMarker (line : List Char) : List Char × List ProtectedSection × Nat :=
  let ws := line.takeWhile jsWhitespace
  let body := line.dropWhile jsWhitespace
  let listHit : Bool :=
    match body with
    | c :: d :: _ => c == '*' && jsWhitespace d
    | _ => false
  if listHit then
    (replaceFirstJS line (ws ++ ['*']) (phLIST 0),
      [{ placeholder := phLIST 0, original := ws ++ ['*'] }], 1)
  else (line, [], 0)

/-- Step 2 of src/processor.ts lines 119-143: the leftover exec-while loop
followed by the callback-based global replace of inline code spans. -/
def protectCodeStage (settings : SmartSpacingSettings)
    (st : List Char × List ProtectedSection × Nat) :
    List Char × List ProtectedSection × Nat :=
  if settings.skipInlineCode then
    let el := execLoop (st.1.length + 1) st.1 0 (phCODE st.2.2) []
    let cb := protectCodeCb el.1.length el.1 st.2.2
    (cb.1, st.2.1 ++ el.2 ++ cb.2.2, cb.2.1)
  else st

/-- src/processor.ts lines 98-155: protect list markers, inline code (the
leftover exec loop followed by the callback replace), then inline LaTeX. -/
def protectLine (line : List Char) (settings : SmartSpacingSettings) :
    List Char × List ProtectedSection :=
  let st2 := protectCodeStage settings (protectListMarker line)
  let lx := protectLatexCb st2.1.length none st2.1 st2.2.2
  (lx.1, st2.2.1 ++ lx.2.2)

/-- src/processor.ts lines 157-165: restore sections in reverse order, each by
a first-occurrence `String.replace` whose replacement is the raw original. -/
def restoreProtectedSections (line : List Char) (sections : List ProtectedSection) :
    List Char :=
  sections.reverse.foldl
    (fun acc sec => replaceFirstJS acc sec.placeholder sec.original) line

/-- A marker frame: marker text and output length right after the marker,
src/processor.ts line 176. -/
structure MarkerFrame where
  type : List Char
  startPos : Nat
deriving DecidableEq, Repr

/-- The trailing-whitespace trim loop of src/processor.ts lines 218-220,
acting on the reversed output buffer: drop whitespace while the length
exceeds `startPos`. -/
def rtrimLoop (startPos : Nat) : List Char → List Char
  | [] => []
  | c :: rest =>
    if startPos < (c :: rest).length ∧ jsWhitespace c then rtrimLoop startPos rest
    else c :: rest

/-- Trim trailing whitespace from `result`, never below length `startPos`. -/
def rtrimTo (startPos : Nat) (result : List Char) : List Char :=
  (rtrimLoop startPos result.reverse).reverse

/-- src/processor.ts lines 197-211 `isMarker`: exactly `count` stars at the
head of `l`, not followed by a further star. -/
def isMarker (l : List Char) (count : Nat) : Bool :=
  decide (count ≤ l.length) && (l.take count).all (fun c => c == '*') &&
    !((l.drop count).head? == some '*')

/-- src/processor.ts lines 213-234 `handleMarker`: close (trim, pop) when the
top frame has the same marker text, otherwise open (push).  Returns the new
stack, the new output buffer, and whether spaces must be skipped (opening). -/
def handleMarker (tok : List Char) (stack : List MarkerFrame) (result : List Char) :
    List MarkerFrame × List Char × Bool :=
  match stack with
  | f :: rest =>
    if f.type = tok then (rest, rtrimTo f.startPos result ++ tok, false)
    else ({ type := tok, startPos := (result ++ tok).length } :: f :: rest,
      result ++ tok, true)
  | [] => ([{ type := tok, startPos := (result ++ tok).length }], result ++ tok, true)

/-- Main loop of src/processor.ts lines 171-237 (`removeInternalSpaces`).
`fuel` dominates the scan steps; the line length is always sufficient. -/
def riGo (fuel : Nat) (l : List Char) (stack : List MarkerFrame)
    (result : List Char) : List Char :=
  match fuel with
  | 0 => result
  | fuel2 + 1 =>
    match l with
    | [] => result
    | c :: r =>
      if isMarker (c :: r) 3 then
        let hm := handleMarker (List.replicate 3 '*') stack result
        riGo fuel2
          (if hm.2.2 then ((c :: r).drop 3).dropWhile isSpaceTab else (c :: r).drop 3)
          hm.1 hm.2.1
      else if isMarker (c :: r) 2 then
        let hm := handleMarker (List.replicate 2 '*') stack result
        riGo fuel2
          (if hm.2.2 then ((c :: r).drop 2).dropWhile isSpaceTab else (c :: r).drop 2)
          hm.1 hm.2.1
      else if isMarker (c :: r) 1 then
        let hm := handleMarker (List.replicate 1 '*') stack result
        riGo fuel2
          (if hm.2.2 then ((c :: r).drop 1).dropWhile isSpaceTab else (c :: r).drop 1)
          hm.1 hm.2.1
      else riGo fuel2 r stack (result ++ [c])

/-- src/processor.ts lines 171-237. -/
def removeInternalSpaces (line : List Char) : List Char := riGo line.length line [] []

/-- Main loop of `fixBoldSpacing`, src/processor.ts lines 249-262 and 271-289:
a single boolean bold state; `**` and `***` both toggle it. -/
def handleBoldToken (settings : SmartSpacingSettings) (tok rest : List Char)
    (isBold : Bool) (result : List Char) : Bool × List Char :=
  if isBold then
    (false,
      result ++ tok ++ (if shouldAddSpaceAfter rest.head? settings then [' '] else []))
  else
    (true,
      (if shouldAddSpaceBefore result.getLast? settings then result ++ [' '] else result)
        ++ tok)

def fbGo (settings : SmartSpacingSettings) (fuel : Nat) (l : List Char)
    (isBold : Bool) (result : List Char) : List Char :=
  match fuel with
  | 0 => result
  | fuel2 + 1 =>
    match l with
    | [] => result
    | c :: r =>
      if isMarker (c :: r) 3 then
        let hb := handleBoldToken settings (List.replicate 3 '*') ((c :: r).drop 3)
          isBold result
        fbGo settings fuel2 ((c :: r).drop 3) hb.1 hb.2
      else if isMarker (c :: r) 2 then
        let hb := handleBoldToken settings (List.replicate 2 '*') ((c :: r).drop 2)
          isBold result
        fbGo settings fuel2 ((c :: r).drop 2) hb.1 hb.2
      else fbGo settings fuel2 r isBold (result ++ [c])

/-- src/processor.ts lines 243-292. -/
def fixBoldSpacing (line : List Char) (settings : SmartSpacingSettings) : List Char :=
  fbGo settings line.length line false []

/-- Main loop of `fixItalicSpacing`, src/processor.ts lines 297-358:
`***` and `**` pass through; single `*` toggles a boolean italic state with
CJK-conditioned space insertion. -/
def fiGo (settings : SmartSpacingSettings) (fuel : Nat) (l : List Char)
    (isItalic : Bool) (result : List Char) : List Char :=
  match fuel with
  | 0 => result
  | fuel2 + 1 =>
    match l with
    | [] => result
    | c :: r =>
      if isMarker (c :: r) 3 then
        fiGo settings fuel2 ((c :: r).drop 3) isItalic (result ++ List.replicate 3 '*')
      else if isMarker (c :: r) 2 then
        fiGo settings fuel2 ((c :: r).drop 2) isItalic (result ++ List.replicate 2 '*')
      else if isMarker (c :: r) 1 then
        if isItalic then
          fiGo settings fuel2 r false
            (result ++ ['*'] ++
              (if settings.spaceBetweenChineseAndItalic &&
                  (match r.head? with | some d => isChinese d | none => false)
                then [' '] else []))
        else
          fiGo settings fuel2 r true
            ((if settings.spaceBetweenChineseAndItalic &&
                (match result.getLast? with
                  | some d => isChinese d && !(d == ' ')
                  | none => false)
              then result ++ [' '] else result) ++ ['*'])
      else fiGo settings fuel2 r isItalic (result ++ [c])

/-- src/processor.ts lines 297-358. -/
def fixItalicSpacing (line : List Char) (settings : SmartSpacingSettings) : List Char :=
  fiGo settings line.length line false []

/-- src/processor.ts lines 71-93. -/
def processLine (line : List Char) (settings : SmartSpacingSettings) : List Char :=
  let p := protectLine line settings
  let c1 := p.1
  let c2 := if settings.removeInternalBoldSpaces then removeInternalSpaces c1 else c1
  let c3 :=
    if settings.spaceBetweenChineseAndBold || settings.spaceBetweenEnglishAndBold then
      fixBoldSpacing c2 settings
    else c2
  let c4 :=
    if settings.spaceBetweenChineseAndItalic then fixItalicSpacing c3 settings else c3
  restoreProtectedSections c4 p.2

/-- The two block flags of the document pass, src/processor.ts lines 31-32. -/
structure BlockState where
  inCodeBlock : Bool
  inLatexBlock : Bool
deriving DecidableEq, Repr

/-- `/^\s*\$\$.*\$\$\s*$/` on an already-trimmed line: starts and ends with
`$$`, at least 4 characters, no line terminator in between. -/
def singleLineDollar (t : List Char) : Bool :=
  (['$', '$'].isPrefixOf t) && decide (4 ≤ t.length) && (['$', '$'].isSuffixOf t) &&
    ((t.drop 2).take (t.length - 4)).all (fun c => !(lineTerminator c))

def fenceTicks : List Char := [btChar, btChar, btChar]

def fenceTildes : List Char := ['~', '~', '~']

/-- One iteration of the line loop of `processText`,
src/processor.ts lines 34-63: fence test, then `$$` test, then the in-block
passthrough, then per-line processing. -/
def processTextStep (settings : SmartSpacingSettings) (st : BlockState)
    (line : List Char) : BlockState × List Char :=
  let t := trimJS line
  if settings.skipCodeBlocks && (fenceTicks.isPrefixOf t || fenceTildes.isPrefixOf t) then
    ({ st with inCodeBlock := !st.inCodeBlock }, line)
  else if (['$', '$'] : List Char).isPrefixOf t then
    (if !(singleLineDollar t) || t = ['$', '$'] then
        { st with inLatexBlock := !st.inLatexBlock }
      else st, line)
  else if st.inCodeBlock || st.inLatexBlock then (st, line)
  else (st, processLine line settings)

def processTextLoop (settings : SmartSpacingSettings) (st : BlockState) :
    List (List Char) → List (List Char)
  | [] => []
  | l :: r =>
    let s := processTextStep settings st l
    s.2 :: processTextLoop settings s.1 r

/-- src/processor.ts lines 28-66, the primary entry point. -/
def processText (text : List Char) (settings : SmartSpacingSettings) : List Char :=
  joinNl (processTextLoop settings { inCodeBlock := false, inLatexBlock := false }
    (splitNl text))

/-- Modelled from the spec (§4.3, mode B): the claimed width-matching variant
of the bold-spacing pass, in which a marker run closes only when the innermost
open frame has the same width and otherwise pushes a new frame.  Used as the
reference point that the implemented single-boolean pass is compared with. -/
def fbsGo (settings : SmartSpacingSettings) (fuel : Nat) (l : List Char)
    (stack : List Nat) (result : List Char) : List Char :=
  match fuel with
  | 0 => result
  | fuel2 + 1 =>
    match l with
    | [] => result
    | c :: r =>
      if isMarker (c :: r) 3 then
        if stack.head? = some 3 then
          fbsGo settings fuel2 ((c :: r).drop 3) stack.tail
            (result ++ List.replicate 3 '*' ++
              (if shouldAddSpaceAfter ((c :: r).drop 3).head? settings then [' '] else []))
        else
          fbsGo settings fuel2 ((c :: r).drop 3) (3 :: stack)
            ((if shouldAddSpaceBefore result.getLast? settings then result ++ [' ']
              else result) ++ List.replicate 3 '*')
      else if isMarker (c :: r) 2 then
        if stack.head? = some 2 then
          fbsGo settings fuel2 ((c :: r).drop 2) stack.tail
            (result ++ List.replicate 2 '*' ++
              (if shouldAddSpaceAfter ((c :: r).drop 2).head? settings then [' '] else []))
        else
          fbsGo settings fuel2 ((c :: r).drop 2) (2 :: stack)
            ((if shouldAddSpaceBefore result.getLast? settings then result ++ [' ']
              else result) ++ List.replicate 2 '*')
      else fbsGo settings fuel2 r stack (result ++ [c])

/-- Modelled from the spec: the bold-spacing pass under the width-matching
stack model of §4.3. -/
def fixBoldSpacingStacked (line : List Char) (settings : SmartSpacingSettings) :
    List Char :=
  fbsGo settings line.length line [] []

/-- Modelled from the spec: one width-matching stack transition.  Frames are
(width, position just after the opening marker); closing reports the interior
bounds. -/
def wpiStep (w pos : Nat) (stack : List (Nat × Nat)) :
    List (Nat × Nat) × Option (Nat × Nat) :=
  match stack with
  | (w2, sp) :: rest2 =>
    if w2 = w then (rest2, some (sp, pos))
    else ((w, pos + w) :: (w2, sp) :: rest2, none)
  | [] => ([(w, pos + w)], none)

/-- Modelled from the spec: scan a line with the width-matching stack model of
§4.3 and collect the interior text of every completed marker pair. -/
def wpiGo (orig : List Char) (fuel : Nat) (l : List Char) (pos : Nat)
    (stack : List (Nat × Nat)) (acc : List (List Char)) : List (List Char) :=
  match fuel with
  | 0 => acc.reverse
  | fuel2 + 1 =>
    match l with
    | [] => acc.reverse
    | c :: r =>
      if isMarker (c :: r) 3 then
        let st := wpiStep 3 pos stack
        wpiGo orig fuel2 ((c :: r).drop 3) (pos + 3) st.1
          (match st.2 with
            | some (a, b) => ((orig.drop a).take (b - a)) :: acc
            | none => acc)
      else if isMarker (c :: r) 2 then
        let st := wpiStep 2 pos stack
        wpiGo orig fuel2 ((c :: r).drop 2) (pos + 2) st.1
          (match st.2 with
            | some (a, b) => ((orig.drop a).take (b - a)) :: acc
            | none => acc)
      else if isMarker (c :: r) 1 then
        let st := wpiStep 1 pos stack
        wpiGo orig fuel2 ((c :: r).drop 1) (pos + 1) st.1
          (match st.2 with
            | some (a, b) => ((orig.drop a).take (b - a)) :: acc
            | none => acc)
      else wpiGo orig fuel2 r (pos + 1) stack acc

/-- Modelled from the spec: the interiors of all marker pairs of a line under
the width-matching stack model. -/
def widthPairInteriors (line : List Char) : List (List Char) :=
  wpiGo line line.length line 0 [] []

/-- Tokens for the marker-level view of a line: a plain character, a marker
run of a given width, or a space inserted by a spacing pass (`ins` marks
exactly the spaces the pass adds, distinguishing them from input spaces). -/
inductive Tok where
  | chr (c : Char)
  | run (w : Nat)
  | ins
deriving DecidableEq, Repr

/-- Tokenize a line with the same run classification (3, then 2, then 1,
`isMarker` semantics) that all three scanning passes use. -/
def tok (fuel : Nat) (l : List Char) : List Tok :=
  match fuel with
  | 0 => []
  | fuel2 + 1 =>
    match l with
    | [] => []
    | c :: r =>
      if isMarker (c :: r) 3 then Tok.run 3 :: tok fuel2 ((c :: r).drop 3)
      else if isMarker (c :: r) 2 then Tok.run 2 :: tok fuel2 ((c :: r).drop 2)
      else if isMarker (c :: r) 1 then Tok.run 1 :: tok fuel2 r
      else Tok.chr c :: tok fuel2 r

/-- The first character of the text a token list denotes. -/
def tokFirstChar : List Tok → Option Char
  | [] => none
  | Tok.chr c :: _ => some c
  | Tok.run _ :: _ => some '*'
  | Tok.ins :: _ => some ' '

/-- Flatten a token list back into text (inserted spaces become spaces). -/
def flattenToks : List Tok → List Char
  | [] => []
  | Tok.chr c :: ts => c :: flattenToks ts
  | Tok.run w :: ts => List.replicate w '*' ++ flattenToks ts
  | Tok.ins :: ts => ' ' :: flattenToks ts

/-- Does the token list start with an inserted space? -/
def headIns : List Tok → Bool
  | Tok.ins :: _ => true
  | _ => false

/-- Token-level restatement of the bold-spacing loop (`fbGo`), emitting an
`ins` token for every space the pass inserts: width-2/3 runs toggle the
single bold flag, a space goes before a run that opens and after a run that
closes; everything else is copied.  Proven equal to the pass (after
flattening) in the C5 theorem. -/
def renderToksBold (settings : SmartSpacingSettings) (ts : List Tok)
    (isBold : Bool) (prev : Option Char) : List Tok :=
  match ts with
  | [] => []
  | Tok.chr c :: ts2 => Tok.chr c :: renderToksBold settings ts2 isBold (some c)
  | Tok.ins :: ts2 => Tok.chr ' ' :: renderToksBold settings ts2 isBold (some ' ')
  | Tok.run w :: ts2 =>
    if w = 1 then Tok.chr '*' :: renderToksBold settings ts2 isBold (some '*')
    else if isBold then
      if shouldAddSpaceAfter (tokFirstChar ts2) settings then
        Tok.run w :: Tok.ins :: renderToksBold settings ts2 false (some ' ')
      else Tok.run w :: renderToksBold settings ts2 false (some '*')
    else
      if shouldAddSpaceBefore prev settings then
        Tok.ins :: Tok.run w :: renderToksBold settings ts2 true (some '*')
      else Tok.run w :: renderToksBold settings ts2 true (some '*')

/-- The CJK test `fiGo` applies to the character after a closing marker. -/
def cjkOpt (x : Option Char) : Bool :=
  match x with
  | some d => isChinese d
  | none => false

/-- The CJK-and-not-space test `fiGo` applies to the character before an
opening marker. -/
def cjkNonSpaceOpt (x : Option Char) : Bool :=
  match x with
  | some d => isChinese d && !(d == ' ')
  | none => false

/-- Token-level restatement of the italic-spacing loop (`fiGo`): width-2/3
runs pass through, width-1 runs toggle the italic flag with CJK-conditioned
`ins` spaces. -/
def renderToksItalic (settings : SmartSpacingSettings) (ts : List Tok)
    (isItalic : Bool) (prev : Option Char) : List Tok :=
  match ts with
  | [] => []
  | Tok.chr c :: ts2 => Tok.chr c :: renderToksItalic settings ts2 isItalic (some c)
  | Tok.ins :: ts2 => Tok.chr ' ' :: renderToksItalic settings ts2 isItalic (some ' ')
  | Tok.run w :: ts2 =>
    if w = 1 then
      if isItalic then
        if settings.spaceBetweenChineseAndItalic && cjkOpt (tokFirstChar ts2) then
          Tok.run 1 :: Tok.ins :: renderToksItalic settings ts2 false (some ' ')
        else Tok.run 1 :: renderToksItalic settings ts2 false (some '*')
      else
        if settings.spaceBetweenChineseAndItalic && cjkNonSpaceOpt prev then
          Tok.ins :: Tok.run 1 :: renderToksItalic settings ts2 true (some '*')
        else Tok.run 1 :: renderToksItalic settings ts2 true (some '*')
    else Tok.run w :: renderToksItalic settings ts2 isItalic (some '*')

/-- Scan a token stream with the bold toggle pairing: a width-2/3 run opens
when bold is closed and closes when it is open.  Check that no inserted space
is the last token before a closing run or the first token after an opening
run - that is, that no inserted space lies immediately inside a pair. -/
def checkBoldGo (ts : List Tok) (isBold : Bool) (prevIns : Bool) : Bool :=
  match ts with
  | [] => true
  | Tok.run w :: ts2 =>
    if w = 1 then checkBoldGo ts2 isBold false
    else if isBold then (!prevIns) && checkBoldGo ts2 false false
    else (!headIns ts2) && checkBoldGo ts2 true false
  | Tok.chr _ :: ts2 => checkBoldGo ts2 isBold false
  | Tok.ins :: ts2 => checkBoldGo ts2 isBold true

def checkNoInsInsideBold (ts : List Tok) : Bool := checkBoldGo ts false false

/-- The italic analogue: width-1 runs toggle, width-2/3 runs are inert. -/
def checkItalicGo (ts : List Tok) (isItalic : Bool) (prevIns : Bool) : Bool :=
  match ts with
  | [] => true
  | Tok.run w :: ts2 =>
    if w = 1 then
      if isItalic then (!prevIns) && checkItalicGo ts2 false false
      else (!headIns ts2) && checkItalicGo ts2 true false
    else checkItalicGo ts2 isItalic false
  | Tok.chr _ :: ts2 => checkItalicGo ts2 isItalic false
  | Tok.ins :: ts2 => checkItalicGo ts2 isItalic true

def checkNoInsInsideItalic (ts : List Tok) : Bool := checkItalicGo ts false false

/-! Supporting lemmas about the closing-marker trim. -/

theorem rtrimLoop_spec (p : Nat) (rev : List Char) :
    ∃ s, rev = s ++ rtrimLoop p rev ∧ min p rev.length ≤ (rtrimLoop p rev).length := by
  induction rev with
  | nil => exact ⟨[], by simp [rtrimLoop], by simp [rtrimLoop]⟩
  | cons c rest ih =>
    by_cases h : p < (c :: rest).length ∧ jsWhitespace c = true
    · obtain ⟨s, hs, hlen⟩ := ih
      have he : rtrimLoop p (c :: rest) = rtrimLoop p rest := by
        rw [rtrimLoop, if_pos h]
      refine ⟨c :: s, ?_, ?_⟩
      · rw [he, List.cons_append]
        exact congrArg (c :: ·) hs
      · rw [he]
        have hp : p ≤ rest.length := by
          simp only [List.length_cons] at h
          omega
        simp only [List.length_cons]
        omega
    · have he : rtrimLoop p (c :: rest) = c :: rest := by
        rw [rtrimLoop]
        simp only [if_neg h]
      exact ⟨[], by rw [he]; rfl, by rw [he]; exact Nat.min_le_right _ _⟩

theorem rtrimTo_never_past (p : Nat) (result : List Char) :
    ∃ t, result = rtrimTo p result ++ t ∧
      min p result.length ≤ (rtrimTo p result).length := by
  obtain ⟨s, hs, hlen⟩ := rtrimLoop_spec p result.reverse
  refine ⟨s.reverse, ?_, ?_⟩
  · calc result = result.reverse.reverse := (List.reverse_reverse _).symm
    _ = (s ++ rtrimLoop p result.reverse).reverse := by rw [← hs]
    _ = (rtrimLoop p result.reverse).reverse ++ s.reverse := List.reverse_append _ _
    _ = rtrimTo p result ++ s.reverse := rfl
  · rw [rtrimTo, List.length_reverse]
    simpa [List.length_reverse] using hlen

/-- C1.  The primary entry point is not idempotent: on a line holding two
inline code spans the leftover exec loop of `protectLine` records both spans
under the same placeholder, and reverse-order restoration swaps them, so a
second run swaps them back. -/
theorem claim1_processText_not_idempotent :
    processText ("`a` x `b`".toList) DEFAULT_SETTINGS = "`b` x `a`".toList ∧
    processText (processText ("`a` x `b`".toList) DEFAULT_SETTINGS) DEFAULT_SETTINGS =
      "`a` x `b`".toList ∧
    processText (processText ("`a` x `b`".toList) DEFAULT_SETTINGS) DEFAULT_SETTINGS ≠
      processText ("`a` x `b`".toList) DEFAULT_SETTINGS := by
  decide

/-- C2.  Inline code spans are not kept at their positions: with two spans on
one line, `protectLine` gives both the same placeholder and
`restoreProtectedSections` swaps them, so restoration does not reproduce the
original line. -/
theorem claim2_code_spans_not_invariant :
    processText ("`a` x `b`".toList) DEFAULT_SETTINGS = "`b` x `a`".toList ∧
    restoreProtectedSections (protectLine ("`a` x `b`".toList) DEFAULT_SETTINGS).1
      (protectLine ("`a` x `b`".toList) DEFAULT_SETTINGS).2 ≠ "`a` x `b`".toList := by
  decide

/-- C10.  A NUL-free input can produce NUL in the output: restoration passes
the original text as a raw `String.replace` replacement, so a code span whose
content holds the sequence dollar-ampersand re-inserts the matched placeholder
(NUL characters included) into the result. -/
theorem claim10_placeholder_leaks_nul :
    (("`a$&b`".toList).all (fun c => !(c == nulChar))) = true ∧
    processText ("`a$&b`".toList) DEFAULT_SETTINGS = "`a\x00CODE0\x00b`".toList ∧
    ((processText ("`a$&b`".toList) DEFAULT_SETTINGS).any (fun c => c == nulChar))
      = true := by
  decide

/-- C6.  The internal-space-removal pass trims `**  Content  **` and
`*  Content  *`, and on a closing marker `handleMarker` replaces the output
buffer by `rtrimTo startPos result ++ marker`, where the trim keeps a prefix
of the buffer at least `startPos` long: it never deletes past the recorded
`outputLength` of the matching opening frame. -/
theorem claim6_internal_trim :
    removeInternalSpaces ("**  Content  **".toList) = "**Content**".toList ∧
    removeInternalSpaces ("*  Content  *".toList) = "*Content*".toList ∧
    ∀ (f : MarkerFrame) (rest : List MarkerFrame) (result : List Char),
      (handleMarker f.type (f :: rest) result).2.1 =
        rtrimTo f.startPos result ++ f.type ∧
      ∃ t, result = rtrimTo f.startPos result ++ t ∧
        min f.startPos result.length ≤ (rtrimTo f.startPos result).length := by
  refine ⟨by decide, by decide, ?_⟩
  intro f rest result
  exact ⟨by simp [handleMarker], rtrimTo_never_past f.startPos result⟩

/-- C7.  Default-configuration behaviour on the spec's symmetry and
triple-marker examples. -/
theorem claim7_default_cjk_bold_spacing :
    processText ("中文**加粗**中文".toList) DEFAULT_SETTINGS = "中文 **加粗** 中文".toList ∧
    processText ("中文***粗斜***中文".toList) DEFAULT_SETTINGS =
      "中文 ***粗斜*** 中文".toList ∧
    processText ("**加粗内容**".toList) DEFAULT_SETTINGS = "**加粗内容**".toList := by
  refine ⟨by decide, by decide, by decide⟩

/-- C8.  The default configuration suppresses English-bold spacing (that flag
defaults to false while the five others default to true); enabling it adds
the spaces. -/
theorem claim8_default_english_suppression :
    DEFAULT_SETTINGS.spaceBetweenEnglishAndBold = false ∧
    DEFAULT_SETTINGS.removeInternalBoldSpaces = true ∧
    DEFAULT_SETTINGS.spaceBetweenChineseAndBold = true ∧
    DEFAULT_SETTINGS.spaceBetweenChineseAndItalic = true ∧
    DEFAULT_SETTINGS.skipCodeBlocks = true ∧
    DEFAULT_SETTINGS.skipInlineCode = true ∧
    processText ("Word**Bold**Word".toList) DEFAULT_SETTINGS =
      "Word**Bold**Word".toList ∧
    processText ("Word**Bold**Word".toList)
      { DEFAULT_SETTINGS with spaceBetweenEnglishAndBold := true } =
      "Word **Bold** Word".toList := by
  decide

/-- C4 counterexample.  With `inCodeBlock` set, a line that is just `$$`
still toggles `inLatexBlock` (the dollar test runs before the in-block test),
so after a fenced block closed again, prose lines are skipped: the document
below comes back unchanged even though its last line alone would be spaced. -/
theorem claim4_dollar_toggles_latex_in_code_block :
    (processTextStep DEFAULT_SETTINGS { inCodeBlock := true, inLatexBlock := false }
      (['$', '$'])).1.inLatexBlock = true ∧
    processText ("```\n$$\n```\n中文**加粗**中文".toList) DEFAULT_SETTINGS =
      "```\n$$\n```\n中文**加粗**中文".toList ∧
    processLine ("中文**加粗**中文".toList) DEFAULT_SETTINGS =
      "中文 **加粗** 中文".toList := by
  decide

/-- A list starting with `$$` starts with a dollar sign, so it fails both
fence-prefix tests, whose first characters are a backtick and a tilde. -/
theorem dollar_prefix_not_fence (t : List Char)
    (h : (['$', '$'] : List Char).isPrefixOf t = true) :
    fenceTicks.isPrefixOf t = false ∧ fenceTildes.isPrefixOf t = false := by
  cases t with
  | nil => exact absurd h (by decide)
  | cons c r =>
    simp [List.isPrefixOf] at h
    obtain ⟨hc, _⟩ := h
    subst hc
    constructor <;> simp [fenceTicks, fenceTildes, List.isPrefixOf, btChar]

/-- C4 amended.  Any line reached while a block flag is true is emitted
unmodified; but the fence and `$$` tests run before the in-block test: a line
whose trimmed form begins with `$$` and is not a complete single-line
`$$...$$` construct (or is exactly `$$`) toggles `inLatexBlock` regardless of
both flags, and with `skipCodeBlocks` enabled a line whose trimmed form
begins with a triple-backtick or triple-tilde fence toggles `inCodeBlock`
regardless of both flags. -/
theorem claim4_blocked_lines_unmodified :
    (∀ (settings : SmartSpacingSettings) (st : BlockState) (line : List Char),
      (st.inCodeBlock || st.inLatexBlock) = true →
      (processTextStep settings st line).2 = line) ∧
    (∀ (settings : SmartSpacingSettings) (st : BlockState) (line : List Char),
      (['$', '$'] : List Char).isPrefixOf (trimJS line) = true →
      (!(singleLineDollar (trimJS line)) || trimJS line = ['$', '$']) = true →
      (processTextStep settings st line).1.inLatexBlock = !st.inLatexBlock) ∧
    (∀ (settings : SmartSpacingSettings) (st : BlockState) (line : List Char),
      settings.skipCodeBlocks = true →
      (fenceTicks.isPrefixOf (trimJS line) || fenceTildes.isPrefixOf (trimJS line)) = true →
      (processTextStep settings st line).1.inCodeBlock = !st.inCodeBlock) := by
  refine ⟨?_, ?_, ?_⟩
  · intro s st line h
    unfold processTextStep
    simp [apply_ite Prod.snd]
    intro _ _ h1 h2
    rw [h1, h2] at h
    simp at h
  · intro s st line h1 h2
    have hf := dollar_prefix_not_fence (trimJS line) h1
    unfold processTextStep
    dsimp only
    rw [if_neg (by simp [hf.1, hf.2]), if_pos h1, if_pos h2]
  · intro s st line hs hf
    unfold processTextStep
    dsimp only
    rw [if_pos (by simp [hs, hf])]

theorem claim4_blocked_lines_unmodified_witness :
    (processTextStep DEFAULT_SETTINGS { inCodeBlock := true, inLatexBlock := false }
      ("中文**加粗**中文".toList)).2 = "中文**加粗**中文".toList ∧
    (processTextStep DEFAULT_SETTINGS { inCodeBlock := true, inLatexBlock := true }
      ("$$ x =".toList)).1.inLatexBlock = false ∧
    (processTextStep DEFAULT_SETTINGS { inCodeBlock := false, inLatexBlock := true }
      ("~~~".toList)).1.inCodeBlock = true := by
  refine ⟨?_, ?_, ?_⟩
  · exact claim4_blocked_lines_unmodified.1 DEFAULT_SETTINGS
      { inCodeBlock := true, inLatexBlock := false } _ (by decide)
  · have h := claim4_blocked_lines_unmodified.2.1 DEFAULT_SETTINGS
      { inCodeBlock := true, inLatexBlock := true } ("$$ x =".toList)
      (by decide) (by decide)
    simpa using h
  · have h := claim4_blocked_lines_unmodified.2.2 DEFAULT_SETTINGS
      { inCodeBlock := false, inLatexBlock := true } ("~~~".toList)
      rfl (by decide)
    simpa using h

/-- C3 counterexample.  The bold-spacing pass is not width-matching: a `***`
run seen while a `**` span is open is treated as a closing marker (space goes
after it), not as an opening marker as the width-stack model would have it
(space would go before it). -/
theorem claim3_bold_pass_differs_from_width_stack :
    fixBoldSpacing ("中文**加粗***中".toList) DEFAULT_SETTINGS =
      "中文 **加粗*** 中".toList ∧
    fixBoldSpacingStacked ("中文**加粗***中".toList) DEFAULT_SETTINGS =
      "中文 **加粗 ***中".toList ∧
    fixBoldSpacing ("中文**加粗***中".toList) DEFAULT_SETTINGS ≠
      fixBoldSpacingStacked ("中文**加粗***中".toList) DEFAULT_SETTINGS := by
  refine ⟨by decide, by decide, by decide⟩

/-- C3 amended.  In the internal-space-removal pass `handleMarker` closes a
marker run exactly when the innermost frame has the same marker text and
otherwise pushes a new frame; the bold-spacing pass instead keeps a single
boolean, so any run seen while bold is open acts as a closing marker, and in
particular `***` after an open `**` closes it. -/
theorem claim3_internal_pass_width_matching :
    (∀ (tok : List Char) (f : MarkerFrame) (rest : List MarkerFrame)
        (result : List Char),
      (f.type = tok →
        handleMarker tok (f :: rest) result =
          (rest, rtrimTo f.startPos result ++ tok, false)) ∧
      (f.type ≠ tok →
        handleMarker tok (f :: rest) result =
          ({ type := tok, startPos := (result ++ tok).length } :: f :: rest,
            result ++ tok, true))) ∧
    (∀ (tok result : List Char),
      handleMarker tok [] result =
        ([{ type := tok, startPos := (result ++ tok).length }], result ++ tok, true)) ∧
    (∀ (settings : SmartSpacingSettings) (tok rest result : List Char),
      handleBoldToken settings tok rest true result =
        (false, result ++ tok ++
          (if shouldAddSpaceAfter rest.head? settings then [' '] else []))) ∧
    fixBoldSpacing ("中文**加粗***中".toList) DEFAULT_SETTINGS =
      "中文 **加粗*** 中".toList := by
  refine ⟨?_, ?_, ?_, by decide⟩
  · intro tok f rest result
    constructor
    · intro h
      simp [handleMarker, h]
    · intro h
      simp [handleMarker, h]
  · intro tok result
    simp [handleMarker]
  · intro s tok rest result
    simp [handleBoldToken]

theorem claim3_internal_pass_width_matching_witness :
    handleMarker ("**".toList) [{ type := "**".toList, startPos := 2 }]
      ("**a ".toList) =
      ([], rtrimTo 2 ("**a ".toList) ++ "**".toList, false) :=
  (claim3_internal_pass_width_matching.1 ("**".toList)
    { type := "**".toList, startPos := 2 } [] ("**a ".toList)).1 (by decide)

/-- C5 counterexample.  On the space-free line `**中***文***` the bold pass
inserts two spaces, and under the spec's width-matching pair model the two
`***` runs form a pair whose interior starts and ends with those inserted
spaces: an inserted space lands immediately inside a width-model pair. -/
theorem claim5_inserted_space_inside_width_pair :
    (("**中***文***".toList).all (fun c => !(isSpaceTab c))) = true ∧
    fixBoldSpacing ("**中***文***".toList) DEFAULT_SETTINGS =
      "**中*** 文 ***".toList ∧
    ((widthPairInteriors ("**中*** 文 ***".toList)).any
      (fun i => i.head? == some ' ' || i.getLast? == some ' ')) = true := by
  refine ⟨by decide, by decide, by decide⟩

/-! Supporting lemmas for the list-marker protection property. -/

theorem isPrefixOf_append_self (p l : List Char) : p.isPrefixOf (p ++ l) = true := by
  induction p with
  | nil => simp [List.isPrefixOf]
  | cons c r ih => simp [List.isPrefixOf, ih]

theorem takeWhile_ws_append (ws : List Char) (l : List Char)
    (hws : ws.all jsWhitespace = true) :
    (ws ++ '*' :: l).takeWhile jsWhitespace = ws ∧
    (ws ++ '*' :: l).dropWhile jsWhitespace = '*' :: l := by
  induction ws with
  | nil =>
    have h : jsWhitespace '*' = false := by decide
    constructor
    · simp [List.takeWhile, h]
    · simp [List.dropWhile, h]
  | cons c r ih =>
    simp only [List.all_cons, Bool.and_eq_true] at hws
    obtain ⟨h1, h2⟩ := hws
    obtain ⟨iht, ihd⟩ := ih h2
    constructor
    · simp [List.takeWhile, h1, iht]
    · simp [List.dropWhile, h1, ihd]

theorem getSubstitution_phLIST0 (m pre post : List Char) :
    getSubstitution (phLIST 0) m pre post = phLIST 0 := rfl

theorem replaceFirst_list_marker (ws : List Char) (x : List Char) :
    replaceFirstJS (ws ++ '*' :: x) (ws ++ ['*']) (phLIST 0) = phLIST 0 ++ x := by
  have hsplit : ws ++ '*' :: x = (ws ++ ['*']) ++ x := by
    rw [List.append_cons]
  rw [hsplit, replaceFirstJS]
  rw [firstIndexOf.eq_def, if_pos (isPrefixOf_append_self _ _)]
  simp only [Nat.zero_add, List.take_zero, List.nil_append]
  rw [List.drop_left, getSubstitution_phLIST0]

theorem scanCodeSpan_head :
    ∀ (l : List Char) (i : Nat) (m : List Char),
      scanCodeSpan l = some (i, m) → m.head? = some btChar := by
  intro l
  induction l with
  | nil => intro i m h; simp [scanCodeSpan] at h
  | cons c r ih =>
    intro i m h
    rw [scanCodeSpan] at h
    cases hc : codeSpanHere (c :: r) with
    | some p =>
      rw [hc] at h
      obtain ⟨m2, rest2⟩ := p
      simp only [Option.some.injEq, Prod.mk.injEq] at h
      rw [codeSpanHere] at hc
      by_cases hb : c = btChar
      · rw [if_pos hb] at hc
        by_cases hr : 0 < (r.takeWhile (fun x => !(x == btChar))).length ∧
            (r.drop (r.takeWhile (fun x => !(x == btChar))).length).head? = some btChar
        · rw [if_pos hr] at hc
          simp only [Option.some.injEq, Prod.mk.injEq] at hc
          rw [← h.2, ← hc.1]
          rfl
        · rw [if_neg hr] at hc
          exact absurd hc (by simp)
      · rw [if_neg hb] at hc
        exact absurd hc (by simp)
    | none =>
      rw [hc] at h
      simp only [Option.map_eq_some'] at h
      obtain ⟨p, hp, he⟩ := h
      cases he
      exact ih p.1 p.2 (by rw [hp])

theorem findCodeSpanFrom_head (s : List Char) (li i : Nat) (m : List Char)
    (h : findCodeSpanFrom s li = some (i, m)) : m.head? = some btChar := by
  rw [findCodeSpanFrom] at h
  simp only [Option.map_eq_some'] at h
  obtain ⟨p, hp, he⟩ := h
  cases he
  exact scanCodeSpan_head _ p.1 p.2 (by rw [hp])

theorem firstIndexOf_bt_ge :
    ∀ (p : List Char), (p.all (fun ch => !(ch == btChar))) = true →
      ∀ (x m : List Char) (i : Nat), m.head? = some btChar →
        firstIndexOf (p ++ x) m = some i → p.length ≤ i := by
  intro p
  induction p with
  | nil => intro _ x m i _ _; exact Nat.zero_le i
  | cons ch p2 ih =>
    intro hall x m i hm h
    simp only [List.all_cons, Bool.and_eq_true] at hall
    obtain ⟨hch, hp2⟩ := hall
    rw [List.cons_append, firstIndexOf] at h
    by_cases hpre : m.isPrefixOf (ch :: (p2 ++ x)) = true
    · exfalso
      cases m with
      | nil => simp at hm
      | cons m0 m3 =>
        simp only [List.head?_cons, Option.some.injEq] at hm
        simp only [List.isPrefixOf, Bool.and_eq_true, beq_iff_eq] at hpre
        rw [hm] at hpre
        simp [hpre.1] at hch
    · rw [if_neg hpre] at h
      simp only [Option.map_eq_some'] at h
      obtain ⟨i2, hi2, he⟩ := h
      have := ih hp2 x m i2 hm hi2
      simp only [List.length_cons]
      omega

theorem replaceFirst_bt_free_pre (p x m rep : List Char)
    (hp : (p.all (fun ch => !(ch == btChar))) = true)
    (hm : m.head? = some btChar) :
    ∃ x2, replaceFirstJS (p ++ x) m rep = p ++ x2 := by
  cases hf : firstIndexOf (p ++ x) m with
  | none => exact ⟨x, by rw [replaceFirstJS, hf]⟩
  | some i =>
    have hge := firstIndexOf_bt_ge p hp x m i hm hf
    have ht : List.take i (p ++ x) = p ++ List.take (i - p.length) x := by
      rw [List.take_append_eq_append_take, List.take_of_length_le hge]
    have hr : replaceFirstJS (p ++ x) m rep =
        List.take i (p ++ x) ++
          getSubstitution rep m (List.take i (p ++ x))
            (List.drop (i + m.length) (p ++ x)) ++
          List.drop (i + m.length) (p ++ x) := by
      rw [replaceFirstJS, hf]
    refine ⟨List.take (i - p.length) x ++
      getSubstitution rep m (p ++ List.take (i - p.length) x)
        (List.drop (i + m.length) (p ++ x)) ++
      List.drop (i + m.length) (p ++ x), ?_⟩
    rw [hr, ht]
    simp [List.append_assoc]

theorem execLoop_bt_free_pre :
    ∀ (fuel : Nat) (p x : List Char) (li : Nat) (ph : List Char)
      (secs : List ProtectedSection),
      (p.all (fun ch => !(ch == btChar))) = true →
      ∃ t, (execLoop fuel (p ++ x) li ph secs).1 = p ++ t := by
  intro fuel
  induction fuel with
  | zero => intro p x li ph secs _; exact ⟨x, rfl⟩
  | succ fuel2 ih =>
    intro p x li ph secs hp
    cases hf : findCodeSpanFrom (p ++ x) li with
    | none =>
      refine ⟨x, ?_⟩
      rw [execLoop, hf]
    | some pr =>
      obtain ⟨idx, m⟩ := pr
      have hm := findCodeSpanFrom_head _ _ _ _ hf
      obtain ⟨x2, hx2⟩ := replaceFirst_bt_free_pre p x m ph hp hm
      have hstep : execLoop (fuel2 + 1) (p ++ x) li ph secs =
          execLoop fuel2 (replaceFirstJS (p ++ x) m ph) (idx + m.length) ph
            (secs ++ [{ placeholder := ph, original := m }]) := by
        rw [execLoop, hf]
      rw [hstep, hx2]
      exact ih p x2 (idx + m.length) ph _ hp

theorem protectCodeCb_bt_free_pre :
    ∀ (p : List Char) (fuel : Nat) (x : List Char) (n : Nat),
      (p.all (fun ch => !(ch == btChar))) = true →
      ∃ t, (protectCodeCb fuel (p ++ x) n).1 = p ++ t := by
  intro p
  induction p with
  | nil => intro fuel x n _; exact ⟨(protectCodeCb fuel x n).1, rfl⟩
  | cons ch p2 ih =>
    intro fuel x n hall
    simp only [List.all_cons, Bool.and_eq_true] at hall
    obtain ⟨hch, hp2⟩ := hall
    cases fuel with
    | zero => exact ⟨x, rfl⟩
    | succ fuel2 =>
      obtain ⟨t, ht⟩ := ih fuel2 x n hp2
      refine ⟨t, ?_⟩
      have hstep : protectCodeCb (fuel2 + 1) ((ch :: p2) ++ x) n =
          (ch :: (protectCodeCb fuel2 (p2 ++ x) n).1,
            (protectCodeCb fuel2 (p2 ++ x) n).2.1,
            (protectCodeCb fuel2 (p2 ++ x) n).2.2) := by
        rw [List.cons_append, protectCodeCb]
        rw [if_neg (by simpa using hch)]
      rw [hstep, ht, List.cons_append]

theorem protectLatexCb_dollar_free_pre :
    ∀ (p : List Char) (fuel : Nat) (prev : Option Char) (x : List Char) (n : Nat),
      (p.all (fun ch => !(ch == '$'))) = true →
      ∃ t, (protectLatexCb fuel prev (p ++ x) n).1 = p ++ t := by
  intro p
  induction p with
  | nil => intro fuel prev x n _; exact ⟨(protectLatexCb fuel prev x n).1, rfl⟩
  | cons ch p2 ih =>
    intro fuel prev x n hall
    simp only [List.all_cons, Bool.and_eq_true] at hall
    obtain ⟨hch, hp2⟩ := hall
    cases fuel with
    | zero => exact ⟨x, rfl⟩
    | succ fuel2 =>
      have hne : ¬(ch = '$' ∧ prev ≠ some '\\') := by
        intro hcon
        rw [hcon.1] at hch
        simp at hch
      obtain ⟨t, ht⟩ := ih fuel2 (some ch) x n hp2
      refine ⟨t, ?_⟩
      have hstep : protectLatexCb (fuel2 + 1) prev ((ch :: p2) ++ x) n =
          (ch :: (protectLatexCb fuel2 (some ch) (p2 ++ x) n).1,
            (protectLatexCb fuel2 (some ch) (p2 ++ x) n).2.1,
            (protectLatexCb fuel2 (some ch) (p2 ++ x) n).2.2) := by
        rw [List.cons_append, protectLatexCb]
        rw [if_neg hne]
      rw [hstep, ht, List.cons_append]

theorem protectListMarker_hit (ws : List Char) (c : Char) (rest : List Char)
    (hws : ws.all jsWhitespace = true) (hc : jsWhitespace c = true) :
    protectListMarker (ws ++ '*' :: c :: rest) =
      (phLIST 0 ++ c :: rest,
        [{ placeholder := phLIST 0, original := ws ++ ['*'] }], 1) := by
  obtain ⟨htake, hdrop⟩ := takeWhile_ws_append ws (c :: rest) hws
  unfold protectListMarker
  rw [htake, hdrop]
  simp only [hc, beq_self_eq_true, Bool.and_self, if_pos]
  rw [replaceFirst_list_marker]

theorem protectCodeStage_pre (settings : SmartSpacingSettings)
    (secs : List ProtectedSection) (n : Nat) (x : List Char) :
    ∃ t n2 secs2,
      protectCodeStage settings (phLIST 0 ++ x, secs, n) =
        (phLIST 0 ++ t, secs ++ secs2, n2) := by
  by_cases hskip : settings.skipInlineCode = true
  · have hbt : ((phLIST 0).all (fun ch => !(ch == btChar))) = true := by decide
    obtain ⟨t1, ht1⟩ :=
      execLoop_bt_free_pre ((phLIST 0 ++ x).length + 1) (phLIST 0) x 0 (phCODE n) [] hbt
    obtain ⟨t2, ht2⟩ :=
      protectCodeCb_bt_free_pre (phLIST 0) (phLIST 0 ++ t1).length t1 n hbt
    refine ⟨t2, (protectCodeCb (phLIST 0 ++ t1).length (phLIST 0 ++ t1) n).2.1,
      (execLoop ((phLIST 0 ++ x).length + 1) (phLIST 0 ++ x) 0 (phCODE n) []).2 ++
        (protectCodeCb (phLIST 0 ++ t1).length (phLIST 0 ++ t1) n).2.2, ?_⟩
    unfold protectCodeStage
    rw [if_pos hskip]
    dsimp only
    rw [ht1, ht2, List.append_assoc]
  · refine ⟨x, n, [], ?_⟩
    unfold protectCodeStage
    rw [if_neg hskip, List.append_nil]

/-- C9.  The leading list-marker asterisk (optional whitespace, a single `*`,
then whitespace) is protected before any pass runs: `protectLine` records it
as the first protected section and the protected line starts with the LIST
placeholder, which holds no asterisk; consequently the three spec examples
process as stated under the default configuration. -/
theorem claim9_list_marker_protected :
    processText ("* List Item".toList) DEFAULT_SETTINGS = "* List Item".toList ∧
    processText ("* **Bold Item**".toList) DEFAULT_SETTINGS =
      "* **Bold Item**".toList ∧
    processText ("* **  Bold Item  **".toList) DEFAULT_SETTINGS =
      "* **Bold Item**".toList ∧
    ∀ (ws : List Char) (c : Char) (rest : List Char)
      (settings : SmartSpacingSettings),
      ws.all jsWhitespace = true → jsWhitespace c = true →
      (protectLine (ws ++ '*' :: c :: rest) settings).2.head? =
        some { placeholder := phLIST 0, original := ws ++ ['*'] } ∧
      ∃ t, (protectLine (ws ++ '*' :: c :: rest) settings).1 = phLIST 0 ++ t := by
  refine ⟨by decide, by decide, by decide, ?_⟩
  intro ws c rest s hws hc
  unfold protectLine
  rw [protectListMarker_hit ws c rest hws hc]
  obtain ⟨t, n2, secs2, hB⟩ :=
    protectCodeStage_pre s [{ placeholder := phLIST 0, original := ws ++ ['*'] }] 1
      (c :: rest)
  rw [hB]
  have hd : ((phLIST 0).all (fun ch => !(ch == '$'))) = true := by decide
  obtain ⟨t3, hC⟩ :=
    protectLatexCb_dollar_free_pre (phLIST 0) (phLIST 0 ++ t).length none t n2 hd
  constructor
  · simp
  · exact ⟨t3, by rw [hC]⟩

theorem claim9_list_marker_protected_witness :
    (protectLine ([' '] ++ '*' :: ' ' :: ("x".toList)) DEFAULT_SETTINGS).2.head? =
      some { placeholder := phLIST 0, original := [' '] ++ ['*'] } ∧
    ∃ t, (protectLine ([' '] ++ '*' :: ' ' :: ("x".toList)) DEFAULT_SETTINGS).1 =
      phLIST 0 ++ t :=
  claim9_list_marker_protected.2.2.2 [' '] ' ' ("x".toList) DEFAULT_SETTINGS
    (by decide) (by decide)

/-! Supporting lemmas for the token-level view of the spacing passes. -/

theorem isMarker_star (c : Char) (r : List Char) (w : Nat)
    (h : isMarker (c :: r) (w + 1) = true) : c = '*' := by
  simp only [isMarker, List.take_succ_cons, List.all_cons, Bool.and_eq_true,
    beq_iff_eq] at h
  exact h.1.2.1

theorem getLast?_append_some (l1 l2 : List Char) (a : Char)
    (h : l2.getLast? = some a) : (l1 ++ l2).getLast? = some a := by
  rw [List.getLast?_append, h]
  simp

theorem getLast?_replicate_star (acc : List Char) (w : Nat) :
    (acc ++ List.replicate (w + 1) '*').getLast? = some '*' := by
  refine getLast?_append_some acc _ '*' ?_
  induction w with
  | zero => rfl
  | succ n ih => simp_all [List.replicate_succ, List.getLast?_cons]

theorem tokFirstChar_tok (fuel : Nat) (l : List Char) (hl : l.length ≤ fuel) :
    tokFirstChar (tok fuel l) = l.head? := by
  cases fuel with
  | zero =>
    have h0 : l = [] := by cases l <;> simp_all
    subst h0
    rfl
  | succ fuel2 =>
    cases l with
    | nil => rfl
    | cons c r =>
      rw [tok]
      by_cases h3 : isMarker (c :: r) 3 = true
      · rw [if_pos h3]
        rw [isMarker_star c r 2 h3]
        rfl
      · rw [if_neg h3]
        by_cases h2 : isMarker (c :: r) 2 = true
        · rw [if_pos h2]
          rw [isMarker_star c r 1 h2]
          rfl
        · rw [if_neg h2]
          by_cases h1 : isMarker (c :: r) 1 = true
          · rw [if_pos h1]
            rw [isMarker_star c r 0 h1]
            rfl
          · rw [if_neg h1]
            rfl

theorem fbGo_renders (settings : SmartSpacingSettings) :
    ∀ (fuel : Nat) (l : List Char), l.length ≤ fuel →
      ∀ (isBold : Bool) (acc : List Char),
        fbGo settings fuel l isBold acc =
          acc ++ flattenToks (renderToksBold settings (tok fuel l) isBold acc.getLast?) := by
  intro fuel
  induction fuel with
  | zero =>
    intro l hl isBold acc
    have h0 : l = [] := by cases l <;> simp_all
    subst h0
    simp [fbGo, tok, renderToksBold, flattenToks]
  | succ fuel2 ih =>
    intro l hl isBold acc
    cases l with
    | nil => simp [fbGo, tok, renderToksBold, flattenToks]
    | cons c r =>
      simp only [List.length_cons] at hl
      by_cases h3 : isMarker (c :: r) 3 = true
      · have hx : ((c :: r).drop 3).length ≤ fuel2 := by
          simp only [List.length_drop, List.length_cons]
          omega
        have hT := tokFirstChar_tok fuel2 ((c :: r).drop 3) hx
        rw [fbGo, tok, if_pos h3, if_pos h3]
        dsimp only
        rw [ih ((c :: r).drop 3) hx]
        rw [renderToksBold]
        rw [if_neg (by decide : ¬(3 = 1))]
        cases isBold with
        | true =>
          simp only [handleBoldToken, if_pos rfl, if_true]
          rw [hT]
          by_cases hsa : shouldAddSpaceAfter ((c :: r).drop 3).head? settings = true
          · rw [if_pos hsa, if_pos hsa]
            rw [List.getLast?_concat]
            simp [flattenToks, List.append_assoc]
          · rw [if_neg hsa, if_neg hsa]
            rw [List.append_nil, getLast?_replicate_star acc 2]
            simp [flattenToks, List.append_assoc]
        | false =>
          simp only [handleBoldToken, Bool.false_eq_true, if_false]
          by_cases hsb : shouldAddSpaceBefore acc.getLast? settings = true
          · rw [if_pos hsb, if_pos hsb]
            rw [getLast?_replicate_star (acc ++ [' ']) 2]
            simp [flattenToks, List.append_assoc]
          · rw [if_neg hsb, if_neg hsb]
            rw [getLast?_replicate_star acc 2]
            simp [flattenToks, List.append_assoc]
      · by_cases h2 : isMarker (c :: r) 2 = true
        · have hx : ((c :: r).drop 2).length ≤ fuel2 := by
            simp only [List.length_drop, List.length_cons]
            omega
          have hT := tokFirstChar_tok fuel2 ((c :: r).drop 2) hx
          rw [fbGo, tok, if_neg h3, if_neg h3, if_pos h2, if_pos h2]
          dsimp only
          rw [ih ((c :: r).drop 2) hx]
          rw [renderToksBold]
          rw [if_neg (by decide : ¬(2 = 1))]
          cases isBold with
          | true =>
            simp only [handleBoldToken, if_pos rfl, if_true]
            rw [hT]
            by_cases hsa : shouldAddSpaceAfter ((c :: r).drop 2).head? settings = true
            · rw [if_pos hsa, if_pos hsa]
              rw [List.getLast?_concat]
              simp [flattenToks, List.append_assoc]
            · rw [if_neg hsa, if_neg hsa]
              rw [List.append_nil, getLast?_replicate_star acc 1]
              simp [flattenToks, List.append_assoc]
          | false =>
            simp only [handleBoldToken, Bool.false_eq_true, if_false]
            by_cases hsb : shouldAddSpaceBefore acc.getLast? settings = true
            · rw [if_pos hsb, if_pos hsb]
              rw [getLast?_replicate_star (acc ++ [' ']) 1]
              simp [flattenToks, List.append_assoc]
            · rw [if_neg hsb, if_neg hsb]
              rw [getLast?_replicate_star acc 1]
              simp [flattenToks, List.append_assoc]
        · have hr : r.length ≤ fuel2 := by omega
          by_cases h1 : isMarker (c :: r) 1 = true
          · have hc : c = '*' := isMarker_star c r 0 h1
            subst hc
            rw [fbGo, tok, if_neg h3, if_neg h3, if_neg h2, if_neg h2, if_pos h1]
            rw [ih r hr]
            rw [renderToksBold, if_pos rfl]
            rw [List.getLast?_concat]
            simp [flattenToks, List.append_assoc]
          · rw [fbGo, tok, if_neg h3, if_neg h3, if_neg h2, if_neg h2, if_neg h1]
            rw [ih r hr]
            rw [renderToksBold]
            rw [List.getLast?_concat]
            simp [flattenToks, List.append_assoc]

theorem headIns_renderToksBold_open (settings : SmartSpacingSettings)
    (ts2 : List Tok) (prev : Option Char) :
    headIns (renderToksBold settings ts2 true prev) = false := by
  cases ts2 with
  | nil => rfl
  | cons t ts3 =>
    cases t with
    | chr c => rfl
    | ins => rfl
    | run w =>
      by_cases hw : w = 1
      · simp [renderToksBold, hw, headIns]
      · rw [renderToksBold, if_neg hw, if_pos rfl]
        by_cases hsa : shouldAddSpaceAfter (tokFirstChar ts3) settings = true
        · rw [if_pos hsa]
          rfl
        · rw [if_neg hsa]
          rfl

theorem checkBoldGo_renderToksBold (settings : SmartSpacingSettings) :
    ∀ (ts : List Tok) (isBold : Bool) (prev : Option Char) (pi : Bool),
      (isBold = true → pi = false) →
      checkBoldGo (renderToksBold settings ts isBold prev) isBold pi = true := by
  intro ts
  induction ts with
  | nil =>
    intro isBold prev pi hinv
    simp [renderToksBold, checkBoldGo]
  | cons t ts2 ih =>
    intro isBold prev pi hinv
    cases t with
    | chr c =>
      rw [renderToksBold, checkBoldGo]
      exact ih isBold (some c) false (fun _ => rfl)
    | ins =>
      rw [renderToksBold, checkBoldGo]
      exact ih isBold (some ' ') false (fun _ => rfl)
    | run w =>
      by_cases hw : w = 1
      · rw [renderToksBold, if_pos hw, checkBoldGo]
        exact ih isBold (some '*') false (fun _ => rfl)
      · cases isBold with
        | true =>
          have hpi : pi = false := hinv rfl
          subst hpi
          rw [renderToksBold, if_neg hw, if_pos rfl]
          by_cases hsa : shouldAddSpaceAfter (tokFirstChar ts2) settings = true
          · rw [if_pos hsa]
            rw [checkBoldGo, if_neg hw, if_pos rfl]
            simp only [Bool.not_false, Bool.true_and]
            rw [checkBoldGo]
            exact ih false (some ' ') true (by simp)
          · rw [if_neg hsa]
            rw [checkBoldGo, if_neg hw, if_pos rfl]
            simp only [Bool.not_false, Bool.true_and]
            exact ih false (some '*') false (fun h => absurd h (by simp))
        | false =>
          by_cases hsb : shouldAddSpaceBefore prev settings = true
          · rw [renderToksBold, if_neg hw]
            rw [if_neg (by simp : ¬(false = true)), if_pos hsb]
            rw [checkBoldGo]
            rw [checkBoldGo, if_neg hw, if_neg (by simp : ¬(false = true))]
            rw [headIns_renderToksBold_open settings ts2 (some '*')]
            simp only [Bool.not_false, Bool.true_and]
            exact ih true (some '*') false (fun _ => rfl)
          · rw [renderToksBold, if_neg hw]
            rw [if_neg (by simp : ¬(false = true)), if_neg hsb]
            rw [checkBoldGo, if_neg hw, if_neg (by simp : ¬(false = true))]
            rw [headIns_renderToksBold_open settings ts2 (some '*')]
            simp only [Bool.not_false, Bool.true_and]
            exact ih true (some '*') false (fun _ => rfl)

theorem fiGo_renders (settings : SmartSpacingSettings) :
    ∀ (fuel : Nat) (l : List Char), l.length ≤ fuel →
      ∀ (isItalic : Bool) (acc : List Char),
        fiGo settings fuel l isItalic acc =
          acc ++ flattenToks (renderToksItalic settings (tok fuel l) isItalic acc.getLast?) := by
  intro fuel
  induction fuel with
  | zero =>
    intro l hl isItalic acc
    have h0 : l = [] := by cases l <;> simp_all
    subst h0
    simp [fiGo, tok, renderToksItalic, flattenToks]
  | succ fuel2 ih =>
    intro l hl isItalic acc
    cases l with
    | nil => simp [fiGo, tok, renderToksItalic, flattenToks]
    | cons c r =>
      simp only [List.length_cons] at hl
      by_cases h3 : isMarker (c :: r) 3 = true
      · have hx : ((c :: r).drop 3).length ≤ fuel2 := by
          simp only [List.length_drop, List.length_cons]
          omega
        rw [fiGo, tok, if_pos h3, if_pos h3]
        rw [renderToksItalic.eq_def]
        dsimp only
        rw [if_neg (by decide : ¬(3 = 1))]
        rw [ih ((c :: r).drop 3) hx]
        rw [getLast?_replicate_star acc 2]
        simp [flattenToks, List.append_assoc]
      · by_cases h2 : isMarker (c :: r) 2 = true
        · have hx : ((c :: r).drop 2).length ≤ fuel2 := by
            simp only [List.length_drop, List.length_cons]
            omega
          rw [fiGo, tok, if_neg h3, if_neg h3, if_pos h2, if_pos h2]
          rw [renderToksItalic.eq_def]
          dsimp only
          rw [if_neg (by decide : ¬(2 = 1))]
          rw [ih ((c :: r).drop 2) hx]
          rw [getLast?_replicate_star acc 1]
          simp [flattenToks, List.append_assoc]
        · have hr : r.length ≤ fuel2 := by omega
          have hT := tokFirstChar_tok fuel2 r hr
          by_cases h1 : isMarker (c :: r) 1 = true
          · have hc : c = '*' := isMarker_star c r 0 h1
            subst hc
            have hconva : (match r.head? with
                | some d => isChinese d
                | none => false) = cjkOpt r.head? := rfl
            have hconvb : (match acc.getLast? with
                | some d => isChinese d && !(d == ' ')
                | none => false) = cjkNonSpaceOpt acc.getLast? := rfl
            rw [fiGo, tok, if_neg h3, if_neg h3, if_neg h2, if_neg h2, if_pos h1,
              if_pos h1]
            rw [renderToksItalic.eq_def]
            dsimp only
            rw [if_pos rfl]
            cases isItalic with
            | true =>
              rw [if_pos rfl, if_pos rfl]
              rw [hT, hconva]
              by_cases hsa :
                  (settings.spaceBetweenChineseAndItalic && cjkOpt r.head?) = true
              · rw [if_pos hsa, if_pos hsa]
                rw [ih r hr]
                rw [List.getLast?_concat]
                simp [flattenToks, List.append_assoc]
              · rw [if_neg hsa, if_neg hsa]
                rw [ih r hr]
                rw [List.append_nil, List.getLast?_concat]
                simp [flattenToks, List.append_assoc]
            | false =>
              rw [if_neg (by simp : ¬(false = true)),
                if_neg (by simp : ¬(false = true))]
              rw [hconvb]
              by_cases hsb :
                  (settings.spaceBetweenChineseAndItalic &&
                    cjkNonSpaceOpt acc.getLast?) = true
              · rw [if_pos hsb, if_pos hsb]
                rw [ih r hr]
                rw [List.getLast?_concat]
                simp [flattenToks, List.append_assoc]
              · rw [if_neg hsb, if_neg hsb]
                rw [ih r hr]
                rw [List.getLast?_concat]
                simp [flattenToks, List.append_assoc]
          · rw [fiGo, tok, if_neg h3, if_neg h3, if_neg h2, if_neg h2, if_neg h1,
              if_neg h1]
            rw [renderToksItalic.eq_def]
            dsimp only
            rw [ih r hr]
            rw [List.getLast?_concat]
            simp [flattenToks, List.append_assoc]

theorem headIns_renderToksItalic_open (settings : SmartSpacingSettings)
    (ts2 : List Tok) (prev : Option Char) :
    headIns (renderToksItalic settings ts2 true prev) = false := by
  cases ts2 with
  | nil => rfl
  | cons t ts3 =>
    cases t with
    | chr c => rfl
    | ins => rfl
    | run w =>
      by_cases hw : w = 1
      · rw [renderToksItalic.eq_def]
        dsimp only
        rw [if_pos hw, if_pos rfl]
        by_cases hsa :
            (settings.spaceBetweenChineseAndItalic && cjkOpt (tokFirstChar ts3)) = true
        · rw [if_pos hsa]
          rfl
        · rw [if_neg hsa]
          rfl
      · rw [renderToksItalic.eq_def]
        dsimp only
        rw [if_neg hw]
        rfl

theorem checkItalicGo_renderToksItalic (settings : SmartSpacingSettings) :
    ∀ (ts : List Tok) (isItalic : Bool) (prev : Option Char) (pi : Bool),
      (isItalic = true → pi = false) →
      checkItalicGo (renderToksItalic settings ts isItalic prev) isItalic pi = true := by
  intro ts
  induction ts with
  | nil =>
    intro isItalic prev pi hinv
    simp [renderToksItalic, checkItalicGo]
  | cons t ts2 ih =>
    intro isItalic prev pi hinv
    cases t with
    | chr c =>
      rw [renderToksItalic, checkItalicGo]
      exact ih isItalic (some c) false (fun _ => rfl)
    | ins =>
      rw [renderToksItalic, checkItalicGo]
      exact ih isItalic (some ' ') false (fun _ => rfl)
    | run w =>
      by_cases hw : w = 1
      · cases isItalic with
        | true =>
          have hpi : pi = false := hinv rfl
          subst hpi
          rw [renderToksItalic.eq_def]
          dsimp only
          rw [if_pos hw, if_pos rfl]
          by_cases hsa :
              (settings.spaceBetweenChineseAndItalic && cjkOpt (tokFirstChar ts2))
                = true
          · rw [if_pos hsa]
            rw [checkItalicGo, if_pos rfl, if_pos rfl]
            simp only [Bool.not_false, Bool.true_and]
            rw [checkItalicGo]
            exact ih false (some ' ') true (by simp)
          · rw [if_neg hsa]
            rw [checkItalicGo, if_pos rfl, if_pos rfl]
            simp only [Bool.not_false, Bool.true_and]
            exact ih false (some '*') false (fun h => absurd h (by simp))
        | false =>
          rw [renderToksItalic.eq_def]
          dsimp only
          rw [if_pos hw, if_neg (by simp : ¬(false = true))]
          by_cases hsb :
              (settings.spaceBetweenChineseAndItalic && cjkNonSpaceOpt prev) = true
          · rw [if_pos hsb]
            rw [checkItalicGo]
            rw [checkItalicGo, if_pos rfl, if_neg (by simp : ¬(false = true))]
            rw [headIns_renderToksItalic_open settings ts2 (some '*')]
            simp only [Bool.not_false, Bool.true_and]
            exact ih true (some '*') false (fun _ => rfl)
          · rw [if_neg hsb]
            rw [checkItalicGo, if_pos rfl, if_neg (by simp : ¬(false = true))]
            rw [headIns_renderToksItalic_open settings ts2 (some '*')]
            simp only [Bool.not_false, Bool.true_and]
            exact ih true (some '*') false (fun _ => rfl)
      · rw [renderToksItalic.eq_def]
        dsimp only
        rw [if_neg hw]
        rw [checkItalicGo, if_neg hw]
        exact ih isItalic (some '*') false (fun _ => rfl)

/-- C5 amended.  Token-level characterisation of the two spacing passes: each
pass equals the flattening of a token stream in which every inserted space is
the distinguished `ins` token, and in that stream no inserted space is the
token immediately after a run that opens, or immediately before a run that
closes, the pair structure of the pass's own toggle model.  (Relative to the
spec's width-matching model an inserted space can lie inside a pair - see the
counterexample theorem.) -/
theorem claim5_no_inserted_space_inside_toggle_pair :
    ∀ (l : List Char) (settings : SmartSpacingSettings),
      fixBoldSpacing l settings =
        flattenToks (renderToksBold settings (tok l.length l) false none) ∧
      checkNoInsInsideBold (renderToksBold settings (tok l.length l) false none)
        = true ∧
      fixItalicSpacing l settings =
        flattenToks (renderToksItalic settings (tok l.length l) false none) ∧
      checkNoInsInsideItalic (renderToksItalic settings (tok l.length l) false none)
        = true := by
  intro l settings
  refine ⟨?_, ?_, ?_, ?_⟩
  · rw [fixBoldSpacing, fbGo_renders settings l.length l le_rfl false []]
    rfl
  · exact checkBoldGo_renderToksBold settings (tok l.length l) false none false
      (fun h => absurd h (by simp))
  · rw [fixItalicSpacing, fiGo_renders settings l.length l le_rfl false []]
    rfl
  · exact checkItalicGo_renderToksItalic settings (tok l.length l) false none false
      (fun h => absurd h (by simp))
